import Mathlib

/-
Verification of the numerical core of the SandysSquarr toy-model suite:
boundary policies (clamp / reflect), the conservative rotation and
corner-quench update rules, and the corner-dwell statistics.

Every definition below is a direct shallow embedding of a Python function
from the repository, over an arbitrary linear ordered field (instantiated
at ℚ for executable checks and at ℝ for the trigonometric rotation rule).
-/

namespace Squarr

/-- Embedding of `clamp` from `utils/shared_plotting.py` and
`streamlit_app.py`: `max(lo, min(hi, x))`. -/
def clamp {K : Type} [LinearOrder K] (x lo hi : K) : K :=
  max lo (min hi x)

/-- Python float modulo `a % m` for positive modulus:
`a - m * floor (a / m)`. Used by `reflect01`. -/
def fmod {K : Type} [LinearOrderedField K] [FloorRing K] (a m : K) : K :=
  a - m * ⌊a / m⌋

/-- Embedding of `reflect01` from `pages/1_Toy_1_Square.py`:
degenerate bounds return `lo`; otherwise fold into `[0, 2·span)` by
modulo and mirror the second half. -/
def reflect01 {K : Type} [LinearOrderedField K] [FloorRing K] (x lo hi : K) : K :=
  if hi ≤ lo then lo
  else
    let span := hi - lo
    let y := fmod (x - lo) (2 * span)
    let y2 := if span < y then 2 * span - y else y
    lo + y2

/-- Embedding of `in_corner` from `pages/3_Toy3_CornerQuench.py` (lines
37–39) and `pages/3_Toy_3_Corner_Collapse.py` (lines 12–13): strict
comparisons against the threshold. -/
def in_corner {K : Type} [LinearOrderedField K] (z s th : K) : Bool :=
  (decide (z > th) && decide (s > th)) || (decide (z < 1 - th) && decide (s < 1 - th))

/-- Embedding of `in_corner` from `pages/page_2_coupled_shear.py` (lines
46–49): NON-strict comparisons against the threshold. -/
def in_corner_ge {K : Type} [LinearOrderedField K] (z s th : K) : Bool :=
  (decide (z ≥ th) && decide (s ≥ th)) || (decide (z ≤ 1 - th) && decide (s ≤ 1 - th))

/-- The exact conservative rotation about the center (0.5, 0.5) from
`pages/page_2_coupled_shear.py` lines 88–93, with `c = cos θ` and
`s = sin θ` precomputed exactly as in the source. -/
def rotCenter {K : Type} [LinearOrderedField K] (c s : K) (p : K × K) : K × K :=
  (c * (p.1 - 1/2) + s * (p.2 - 1/2) + 1/2,
   -s * (p.1 - 1/2) + c * (p.2 - 1/2) + 1/2)

/-- One full step of the module-level loop of
`pages/page_2_coupled_shear.py` lines 86–107: exact rotation followed by
the corner-triggered quench toward the target `(tZ, tS)`. -/
def rotQuenchStep {K : Type} [LinearOrderedField K]
    (c s q tZ tS th : K) (p : K × K) : K × K :=
  let r := rotCenter c s p
  if in_corner_ge r.1 r.2 th then
    ((1 - q) * r.1 + q * tZ, (1 - q) * r.2 + q * tS)
  else r

/-- Squared distance from the center (0.5, 0.5), the square of the
quantity `sqrt((Z-0.5)^2 + (Sigma-0.5)^2)` used by the spec. -/
def distSqFromCenter {K : Type} [LinearOrderedField K] (p : K × K) : K :=
  (p.1 - 1/2)^2 + (p.2 - 1/2)^2

-- ==================================================================
-- Helper lemmas: boundary policies
-- ==================================================================

theorem fmod_eq_mul_fract {K : Type} [LinearOrderedField K] [FloorRing K]
    (a : K) {m : K} (hm : m ≠ 0) : fmod a m = m * Int.fract (a / m) := by
  unfold fmod Int.fract
  field_simp

theorem fmod_nonneg {K : Type} [LinearOrderedField K] [FloorRing K]
    (a : K) {m : K} (hm : 0 < m) : 0 ≤ fmod a m := by
  rw [fmod_eq_mul_fract a hm.ne']
  exact mul_nonneg hm.le (Int.fract_nonneg _)

theorem fmod_lt {K : Type} [LinearOrderedField K] [FloorRing K]
    (a : K) {m : K} (hm : 0 < m) : fmod a m < m := by
  rw [fmod_eq_mul_fract a hm.ne']
  calc m * Int.fract (a / m) < m * 1 :=
        (mul_lt_mul_left hm).mpr (Int.fract_lt_one _)
    _ = m := mul_one m

theorem clamp_mem {K : Type} [LinearOrder K] (x : K) {lo hi : K} (h : lo ≤ hi) :
    lo ≤ clamp x lo hi ∧ clamp x lo hi ≤ hi := by
  unfold clamp
  exact ⟨le_max_left _ _, max_le h (min_le_left _ _)⟩

theorem clamp_of_degenerate {K : Type} [LinearOrder K] (x : K) {lo hi : K}
    (h : hi ≤ lo) : clamp x lo hi = lo := by
  unfold clamp
  exact max_eq_left (le_trans (min_le_left _ _) h)

theorem reflect01_mem {K : Type} [LinearOrderedField K] [FloorRing K]
    (x : K) {lo hi : K} (h : lo < hi) :
    lo ≤ reflect01 x lo hi ∧ reflect01 x lo hi ≤ hi := by
  unfold reflect01
  rw [if_neg (not_le.mpr h)]
  have hspan : (0:K) < hi - lo := sub_pos.mpr h
  have h2span : (0:K) < 2 * (hi - lo) := by linarith
  have hy0 : 0 ≤ fmod (x - lo) (2 * (hi - lo)) := fmod_nonneg _ h2span
  have hy1 : fmod (x - lo) (2 * (hi - lo)) < 2 * (hi - lo) := fmod_lt _ h2span
  dsimp only
  split
  · constructor <;> [linarith; linarith]
  · constructor <;> [linarith; linarith]

theorem reflect01_of_degenerate {K : Type} [LinearOrderedField K] [FloorRing K]
    (x : K) {lo hi : K} (h : hi ≤ lo) : reflect01 x lo hi = lo := by
  unfold reflect01
  rw [if_pos h]

theorem fmod_eq_self {K : Type} [LinearOrderedField K] [FloorRing K]
    {a m : K} (h0 : 0 ≤ a) (h1 : a < m) : fmod a m = a := by
  have hm : 0 < m := lt_of_le_of_lt h0 h1
  have hfloor : ⌊a / m⌋ = 0 := by
    rw [Int.floor_eq_zero_iff]
    constructor
    · exact div_nonneg h0 hm.le
    · rw [div_lt_one hm]
      exact h1
  unfold fmod
  rw [hfloor]
  simp

theorem reflect01_inside {K : Type} [LinearOrderedField K] [FloorRing K]
    {lo hi d : K} (h : lo < hi) (hd0 : 0 ≤ d) (hd : d ≤ hi - lo) :
    reflect01 (lo + d) lo hi = lo + d := by
  unfold reflect01
  rw [if_neg (not_le.mpr h)]
  have hspan : (0:K) < hi - lo := sub_pos.mpr h
  have hx : lo + d - lo = d := by ring
  have hmod : fmod (lo + d - lo) (2 * (hi - lo)) = d := by
    rw [hx]
    exact fmod_eq_self hd0 (by linarith)
  dsimp only
  rw [hmod, if_neg (not_lt.mpr hd)]

theorem reflect01_bounce {K : Type} [LinearOrderedField K] [FloorRing K]
    {lo hi d : K} (h : lo < hi) (hd0 : 0 ≤ d) (hd : d ≤ hi - lo) :
    reflect01 (hi + d) lo hi = hi - d := by
  unfold reflect01
  rw [if_neg (not_le.mpr h)]
  have hspan : (0:K) < hi - lo := sub_pos.mpr h
  have hx : hi + d - lo = (hi - lo) + d := by ring
  rcases lt_or_eq_of_le hd with hlt | heq
  · have hmod : fmod (hi + d - lo) (2 * (hi - lo)) = (hi - lo) + d := by
      rw [hx]
      exact fmod_eq_self (by linarith) (by linarith)
    dsimp only
    rw [hmod]
    rcases lt_or_eq_of_le hd0 with hpos | hzero
    · rw [if_pos (by linarith)]
      ring
    · rw [if_neg (by linarith)]
      linarith
  · have hmod : fmod (hi + d - lo) (2 * (hi - lo)) = 0 := by
      unfold fmod
      have hq : (hi + d - lo) / (2 * (hi - lo)) = 1 := by
        rw [hx, heq, div_eq_one_iff_eq (mul_ne_zero two_ne_zero (ne_of_gt hspan))]
        ring
      rw [hq]
      simp
      linarith
    dsimp only
    rw [hmod, if_neg (not_lt.mpr (by linarith))]
    linarith

-- ==================================================================
-- C4, C5, C9, C6
-- ==================================================================

/-- Claim C4: for every x (arbitrarily far outside the bounds) and every
bound pair with lo < hi, both boundary policies — clamp and reflect —
return a value inside [lo, hi]; for reflect this covers arbitrary
overshoot (any number of wall bounces within one step). -/
theorem boundary_containment {K : Type} [LinearOrderedField K] [FloorRing K]
    (x lo hi : K) (h : lo < hi) :
    (lo ≤ clamp x lo hi ∧ clamp x lo hi ≤ hi) ∧
    (lo ≤ reflect01 x lo hi ∧ reflect01 x lo hi ≤ hi) :=
  ⟨clamp_mem x h.le, reflect01_mem x h⟩

/-- Witness for C4 at a concrete input overshooting by several spans:
x = 37/5 with bounds [0, 1]. -/
theorem boundary_containment_witness :
    ((0:ℚ) < 1) ∧
    ((0 ≤ clamp (37/5 : ℚ) 0 1 ∧ clamp (37/5 : ℚ) 0 1 ≤ 1) ∧
     (0 ≤ reflect01 (37/5 : ℚ) 0 1 ∧ reflect01 (37/5 : ℚ) 0 1 ≤ 1)) :=
  ⟨by norm_num, boundary_containment (37/5 : ℚ) 0 1 (by norm_num)⟩

/-- Claim C5: the reflect policy is the identity on in-range inputs
(`reflect(lo+d) = lo+d` for `0 ≤ d ≤ hi-lo`) and mirrors a single
overshoot (`reflect(hi+d) = hi-d` for `0 ≤ d ≤ hi-lo`). -/
theorem reflect_identity_and_mirror {K : Type} [LinearOrderedField K] [FloorRing K]
    (lo hi d : K) (h : lo < hi) (hd0 : 0 ≤ d) (hd : d ≤ hi - lo) :
    reflect01 (lo + d) lo hi = lo + d ∧ reflect01 (hi + d) lo hi = hi - d :=
  ⟨reflect01_inside h hd0 hd, reflect01_bounce h hd0 hd⟩

/-- Witness for C5 at lo = 0, hi = 1, d = 3/10. -/
theorem reflect_identity_and_mirror_witness :
    ((0:ℚ) < 1 ∧ (0:ℚ) ≤ 3/10 ∧ (3/10:ℚ) ≤ 1 - 0) ∧
    (reflect01 ((0:ℚ) + 3/10) 0 1 = 0 + 3/10 ∧ reflect01 ((1:ℚ) + 3/10) 0 1 = 1 - 3/10) :=
  ⟨by norm_num,
   reflect_identity_and_mirror (0:ℚ) 1 (3/10) (by norm_num) (by norm_num) (by norm_num)⟩

/-- Claim C9: with degenerate bounds (lo ≥ hi) both boundary policies
return lo (no error is raised; the function is total). -/
theorem degenerate_bounds_return_lo {K : Type} [LinearOrderedField K] [FloorRing K]
    (x lo hi : K) (h : hi ≤ lo) :
    clamp x lo hi = lo ∧ reflect01 x lo hi = lo :=
  ⟨clamp_of_degenerate x h, reflect01_of_degenerate x h⟩

/-- Witness for C9 at x = 7, lo = 1, hi = 0. -/
theorem degenerate_bounds_return_lo_witness :
    ((0:ℚ) ≤ 1) ∧ (clamp (7:ℚ) 1 0 = 1 ∧ reflect01 (7:ℚ) 1 0 = 1) :=
  ⟨by norm_num, degenerate_bounds_return_lo (7:ℚ) 1 0 (by norm_num)⟩

/-- Counterexample to claim C6 as stated: the `in_corner` variant in
`pages/page_2_coupled_shear.py` uses NON-strict comparisons, so the
state (0.85, 0.85) at threshold 0.85 ∈ (0.5, 1) — exactly on the
threshold — is flagged as in-corner, while the claimed strict
characterization is false there. -/
theorem corner_classifier_strictness_fails :
    ((1/2:ℚ) < 17/20 ∧ (17/20:ℚ) < 1) ∧
    in_corner_ge (17/20 : ℚ) (17/20) (17/20) = true ∧
    ¬(((17:ℚ)/20 > 17/20 ∧ (17:ℚ)/20 > 17/20) ∨
      ((17:ℚ)/20 < 1 - 17/20 ∧ (17:ℚ)/20 < 1 - 17/20)) := by
  refine ⟨by norm_num, ?_, by norm_num⟩
  simp [in_corner_ge]

/-- Claim C6, amended: the corner classifiers of
`pages/3_Toy3_CornerQuench.py` and `pages/3_Toy_3_Corner_Collapse.py`
satisfy the strict characterization
`(Z > θ ∧ Σ > θ) ∨ (Z < 1−θ ∧ Σ < 1−θ)` exactly; the variant in
`pages/page_2_coupled_shear.py` satisfies the corresponding NON-strict
characterization, so states exactly on the threshold are in-corner for
that variant. -/
theorem corner_classifier_characterization {K : Type} [LinearOrderedField K]
    (z s th : K) :
    (in_corner z s th = true ↔ (z > th ∧ s > th) ∨ (z < 1 - th ∧ s < 1 - th)) ∧
    (in_corner_ge z s th = true ↔ (z ≥ th ∧ s ≥ th) ∨ (z ≤ 1 - th ∧ s ≤ 1 - th)) := by
  constructor <;> simp [in_corner, in_corner_ge]

-- ==================================================================
-- Toy 3 kernel (pages/3_Toy3_CornerQuench.py, toy3_corner_quench)
-- ==================================================================

/-- One iteration of the loop body of `toy3_corner_quench` in
`pages/3_Toy3_CornerQuench.py` (lines 88–110) acting on the underlying
amplitude pair (u, v): exact rotation, then the corner test on the
(optionally sheared, clipped) view, then the amplitude quench. -/
def toy3_kernel_step {K : Type} [LinearOrderedField K]
    (c s q corner_th shear cx cy : K) (uv : K × K) : K × K :=
  let u := c * uv.1 - s * uv.2
  let v := s * uv.1 + c * uv.2
  let z := cx + u
  let sig := cy + v
  let z2 := if shear = 0 then z else cx + (z - cx) + shear * (sig - cy)
  if in_corner (clamp z2 0 1) (clamp sig 0 1) corner_th then
    ((1 - q) * u, (1 - q) * v)
  else (u, v)

/-- Squared amplitude u² + v² of the toy3 kernel state. -/
def ampSq {K : Type} [LinearOrderedField K] (uv : K × K) : K :=
  uv.1^2 + uv.2^2

-- ==================================================================
-- Helper lemmas: rotation and quench
-- ==================================================================

theorem rotQuenchStep_zero_quench {K : Type} [LinearOrderedField K]
    (c s tZ tS th : K) (p : K × K) :
    rotQuenchStep c s 0 tZ tS th p = rotCenter c s p := by
  unfold rotQuenchStep
  dsimp only
  split
  · rw [Prod.ext_iff]
    constructor <;> ring
  · rfl

theorem distSq_rotCenter {K : Type} [LinearOrderedField K] (c s : K) (p : K × K) :
    distSqFromCenter (rotCenter c s p) = (c^2 + s^2) * distSqFromCenter p := by
  simp only [rotCenter, distSqFromCenter]
  ring

theorem toy3_kernel_step_zero_quench {K : Type} [LinearOrderedField K]
    (c s corner_th shear cx cy : K) (uv : K × K) :
    toy3_kernel_step c s 0 corner_th shear cx cy uv =
      (c * uv.1 - s * uv.2, s * uv.1 + c * uv.2) := by
  unfold toy3_kernel_step
  dsimp only
  split <;> split <;>
    (rw [Prod.ext_iff]; constructor <;> (dsimp only; try ring))

theorem ampSq_rot {K : Type} [LinearOrderedField K] (c s : K) (uv : K × K) :
    ampSq ((c * uv.1 - s * uv.2, s * uv.1 + c * uv.2) : K × K) =
      (c^2 + s^2) * ampSq uv := by
  simp only [ampSq]
  ring

theorem rot_distSq_invariant (θ : ℝ) (tZ tS th : ℝ) (n : ℕ) (p : ℝ × ℝ) :
    distSqFromCenter ((rotQuenchStep (Real.cos θ) (Real.sin θ) 0 tZ tS th)^[n] p) =
      distSqFromCenter p := by
  induction n with
  | zero => rfl
  | succ n ih =>
      rw [Function.iterate_succ_apply', rotQuenchStep_zero_quench, distSq_rotCenter,
        Real.cos_sq_add_sin_sq, one_mul, ih]

-- ==================================================================
-- C1: conservative rotation preserves distance from center
-- ==================================================================

/-- Claim C1: with quench disabled (quench_strength = 0) the exact
rotation rule preserves the distance from the center
`sqrt((Z-1/2)² + (Σ-1/2)²)` for every rotation angle θ, every step
count and every initial state; in particular, starting 0.18 to the
right of center with θ = 1/100 rad per step, after 1000 steps the
distance from center is still 0.18 = 9/50.  The third conjunct states
the same invariance for the underlying amplitude pair of
`toy3_corner_quench`. -/
theorem conservative_rotation_distance_invariant (θ tZ tS th : ℝ) (n : ℕ) (p : ℝ × ℝ) :
    Real.sqrt (distSqFromCenter ((rotQuenchStep (Real.cos θ) (Real.sin θ) 0 tZ tS th)^[n] p)) =
      Real.sqrt (distSqFromCenter p) ∧
    Real.sqrt (distSqFromCenter
        ((rotQuenchStep (Real.cos (1/100)) (Real.sin (1/100)) 0 tZ tS th)^[1000]
          ((17/25 : ℝ), 1/2))) = 9/50 ∧
    (∀ (shear cx cy : ℝ) (m : ℕ) (uv : ℝ × ℝ),
      ampSq ((toy3_kernel_step (Real.cos θ) (Real.sin θ) 0 th shear cx cy)^[m] uv) =
        ampSq uv) := by
  refine ⟨by rw [rot_distSq_invariant], ?_, ?_⟩
  · rw [rot_distSq_invariant]
    have : distSqFromCenter ((17/25 : ℝ), 1/2) = (9/50)^2 := by
      simp only [distSqFromCenter]
      norm_num
    rw [this, Real.sqrt_sq (by norm_num)]
  · intro shear cx cy m uv
    induction m with
    | zero => rfl
    | succ m ih =>
        rw [Function.iterate_succ_apply', toy3_kernel_step_zero_quench, ampSq_rot,
          Real.cos_sq_add_sin_sq, one_mul, ih]

-- ==================================================================
-- C2: corner quench toward the center contracts the distance
-- ==================================================================

/-- Claim C2: on a step whose post-rotation state lies in the corner
region, the quench toward the center target (1/2, 1/2) with strength
0 < q ≤ 1 multiplies the centered coordinates by (1 - q), and hence
the distance from center strictly decreases whenever the pre-quench
distance is nonzero. -/
theorem corner_quench_contracts (θ th q : ℝ) (p : ℝ × ℝ)
    (hq : 0 < q) (hq1 : q ≤ 1)
    (hin : in_corner_ge (rotCenter (Real.cos θ) (Real.sin θ) p).1
      (rotCenter (Real.cos θ) (Real.sin θ) p).2 th = true)
    (hpos : 0 < distSqFromCenter p) :
    rotQuenchStep (Real.cos θ) (Real.sin θ) q (1/2) (1/2) th p =
      ((1 - q) * ((rotCenter (Real.cos θ) (Real.sin θ) p).1 - 1/2) + 1/2,
       (1 - q) * ((rotCenter (Real.cos θ) (Real.sin θ) p).2 - 1/2) + 1/2) ∧
    Real.sqrt (distSqFromCenter (rotQuenchStep (Real.cos θ) (Real.sin θ) q (1/2) (1/2) th p)) <
      Real.sqrt (distSqFromCenter p) := by
  have hstep : rotQuenchStep (Real.cos θ) (Real.sin θ) q (1/2) (1/2) th p =
      ((1 - q) * ((rotCenter (Real.cos θ) (Real.sin θ) p).1 - 1/2) + 1/2,
       (1 - q) * ((rotCenter (Real.cos θ) (Real.sin θ) p).2 - 1/2) + 1/2) := by
    unfold rotQuenchStep
    dsimp only
    rw [if_pos hin, Prod.ext_iff]
    constructor <;> (dsimp only; ring)
  refine ⟨hstep, ?_⟩
  have hrot : distSqFromCenter (rotCenter (Real.cos θ) (Real.sin θ) p) =
      distSqFromCenter p := by
    rw [distSq_rotCenter, Real.cos_sq_add_sin_sq, one_mul]
  have hdq : distSqFromCenter (rotQuenchStep (Real.cos θ) (Real.sin θ) q (1/2) (1/2) th p) =
      (1 - q)^2 * distSqFromCenter p := by
    rw [hstep]
    simp only [distSqFromCenter] at hrot ⊢
    nlinarith [hrot]
  rw [hdq]
  have h1q : 0 ≤ 1 - q := by linarith
  have hsq : Real.sqrt ((1 - q)^2 * distSqFromCenter p) =
      (1 - q) * Real.sqrt (distSqFromCenter p) := by
    rw [Real.sqrt_mul (by positivity), Real.sqrt_sq h1q]
  rw [hsq]
  have hroot : 0 < Real.sqrt (distSqFromCenter p) := Real.sqrt_pos.mpr hpos
  calc (1 - q) * Real.sqrt (distSqFromCenter p)
      < 1 * Real.sqrt (distSqFromCenter p) := by
        apply mul_lt_mul_of_pos_right (by linarith) hroot
    _ = Real.sqrt (distSqFromCenter p) := one_mul _

/-- Witness for C2 at θ = 0, state (9/10, 9/10), threshold 17/20,
quench strength 1/2: the post-rotation state is in the corner and the
distance from center strictly decreases. -/
theorem corner_quench_contracts_witness :
    Real.sqrt (distSqFromCenter
        (rotQuenchStep (Real.cos 0) (Real.sin 0) (1/2) (1/2) (1/2) (17/20)
          ((9/10 : ℝ), 9/10))) <
      Real.sqrt (distSqFromCenter ((9/10 : ℝ), 9/10)) :=
  (corner_quench_contracts 0 (17/20) (1/2) ((9/10 : ℝ), 9/10)
    (by norm_num) (by norm_num)
    (by
      simp only [rotCenter, Real.cos_zero, Real.sin_zero, in_corner_ge]
      norm_num)
    (by simp only [distSqFromCenter]; norm_num)).2

-- ==================================================================
-- Corner dwell statistics (pages/3_Toy3_CornerQuench.py, lines 41–61)
-- ==================================================================

/-- The entries / max-run scan of `corner_dwell_stats` in
`pages/3_Toy3_CornerQuench.py` (lines 47–59): state is
(entries, max_run, run, prev), one pass over the flag list. -/
def dwellScan : List Bool → ℕ → ℕ → ℕ → Bool → ℕ × ℕ
  | [], entries, maxRun, _, _ => (entries, maxRun)
  | f :: rest, entries, maxRun, run, prev =>
      let entries2 := if f && !prev then entries + 1 else entries
      if f then dwellScan rest entries2 (max maxRun (run + 1)) (run + 1) f
      else dwellScan rest entries2 maxRun 0 f

/-- Embedding of `corner_dwell_stats` from
`pages/3_Toy3_CornerQuench.py` (lines 41–61) as a function of the
per-step in-corner flag list: returns
(dwell_steps, dwell_frac, entries, max_run). -/
def corner_dwell_stats (flags : List Bool) : ℕ × ℚ × ℕ × ℕ :=
  let dwell_steps := flags.count true
  let dwell_frac : ℚ := if flags.length = 0 then 0 else (dwell_steps : ℚ) / (flags.length : ℚ)
  let es := dwellScan flags 0 0 0 false
  (dwell_steps, dwell_frac, es.1, es.2)

/-- The inline corner-run bookkeeping of the simulation loop in
`pages/page_2_coupled_shear.py` (lines 96–115): state is
(corner_hits, corner_run_lengths, current_run); a run is recorded when
it ends, and a still-open run is closed after the loop. -/
def runScan : List Bool → ℕ → List ℕ → ℕ → ℕ × List ℕ
  | [], hits, runs, current =>
      if 0 < current then (hits + 1, runs ++ [current]) else (hits, runs)
  | f :: rest, hits, runs, current =>
      if f then runScan rest hits runs (current + 1)
      else if 0 < current then runScan rest (hits + 1) (runs ++ [current]) 0
      else runScan rest hits runs 0

/-- The corner bookkeeping of `pages/page_2_coupled_shear.py` run from
its initial state (0 hits, no recorded runs, no open run). -/
def corner_bookkeeping (flags : List Bool) : ℕ × List ℕ :=
  runScan flags 0 [] 0

/-- `int(np.max(corner_run_lengths)) if corner_run_lengths else 0`
from `pages/page_2_coupled_shear.py` line 176. -/
def listMax (l : List ℕ) : ℕ := l.foldr max 0

-- ==================================================================
-- Helper lemmas: dwell statistics
-- ==================================================================

theorem listMax_append_single (l : List ℕ) (a : ℕ) :
    listMax (l ++ [a]) = max (listMax l) a := by
  induction l with
  | nil => simp [listMax]
  | cons b l ih =>
      simp only [listMax, List.cons_append, List.foldr_cons] at ih ⊢
      rw [ih, Nat.max_assoc]

theorem dwellScan_entries_le (l : List Bool) :
    ∀ (e m r : ℕ) (prev : Bool),
      (dwellScan l e m r prev).1 ≤ e + l.count true ∧
      (dwellScan l e m r prev).2 ≤ max m (r + l.count true) := by
  induction l with
  | nil =>
      intro e m r prev
      simp [dwellScan]
  | cons f rest ih =>
      intro e m r prev
      cases f with
      | true =>
          simp only [dwellScan, Bool.true_and, if_pos rfl, List.count_cons,
            beq_self_eq_true, if_pos]
          have h := ih (if !prev then e + 1 else e) (max m (r + 1)) (r + 1) true
          constructor
          · refine le_trans h.1 ?_
            have he : (if !prev then e + 1 else e) ≤ e + 1 := by
              cases prev <;> simp
            omega
          · refine le_trans h.2 ?_
            apply max_le
            · apply max_le (le_max_left _ _)
              exact le_trans (by omega) (le_max_right m (r + (rest.count true + 1)))
            · exact le_trans (by omega) (le_max_right m (r + (rest.count true + 1)))
      | false =>
          simp only [dwellScan, Bool.false_and, if_neg (Bool.false_ne_true),
            List.count_cons]
          have h := ih e m 0 false
          constructor
          · refine le_trans h.1 ?_
            simp
          · refine le_trans h.2 ?_
            apply max_le (le_max_left _ _)
            refine le_trans ?_ (le_max_right m _)
            simp

theorem dwellScan_entries_mono (l : List Bool) :
    ∀ (e m r : ℕ) (prev : Bool), e ≤ (dwellScan l e m r prev).1 := by
  induction l with
  | nil => intro e m r prev; simp [dwellScan]
  | cons f rest ih =>
      intro e m r prev
      cases f with
      | true =>
          simp only [dwellScan, Bool.true_and, if_pos rfl]
          have h := ih (if !prev then e + 1 else e) (max m (r + 1)) (r + 1) true
          cases prev <;> simp at h ⊢ <;> omega
      | false =>
          simp only [dwellScan, Bool.false_and, if_neg (Bool.false_ne_true)]
          exact ih e m 0 false

theorem dwellScan_all_false : ∀ (l : List Bool), (∀ b ∈ l, b = false) →
    ∀ (e m : ℕ) (prev : Bool), dwellScan l e m 0 prev = (e, m) := by
  intro l
  induction l with
  | nil => intro _ e m prev; rfl
  | cons f rest ih =>
      intro hl e m prev
      have hf : f = false := hl f (List.mem_cons_self f rest)
      subst hf
      simp only [dwellScan, Bool.false_and, if_neg (Bool.false_ne_true)]
      exact ih (fun b hb => hl b (List.mem_cons_of_mem _ hb)) e m false

theorem dwellScan_false_block : ∀ (l1 rest : List Bool) (e m : ℕ),
    (∀ b ∈ l1, b = false) →
    dwellScan (l1 ++ rest) e m 0 false = dwellScan rest e m 0 false := by
  intro l1
  induction l1 with
  | nil => intro rest e m _; rfl
  | cons b l ih =>
      intro rest e m h
      have hb : b = false := h b (List.mem_cons_self b l)
      subst hb
      simp only [List.cons_append, dwellScan, Bool.false_and,
        if_neg (Bool.false_ne_true)]
      exact ih rest e m (fun x hx => h x (List.mem_cons_of_mem _ hx))

-- ==================================================================
-- C7: concrete dwell scenario and entry tie-breaks
-- ==================================================================

/-- Claim C7: on the flag sequence [F,F,T,T,T,F,T,F,F] the dwell
statistics are dwell_count = 4, dwell_fraction = 4/9, entry_count = 2,
max_run_length = 3; a trajectory starting with a True flag counts at
least one entry at step 0; and a single isolated True flag (surrounded
by False flags only) counts as exactly one entry and a maximal run of
length 1. -/
theorem dwell_stats_concrete_scenario :
    corner_dwell_stats
        [false, false, true, true, true, false, true, false, false] =
      (4, 4/9, 2, 3) ∧
    (∀ rest : List Bool, 1 ≤ (corner_dwell_stats (true :: rest)).2.2.1) ∧
    (∀ l1 l2 : List Bool, (∀ b ∈ l1, b = false) → (∀ b ∈ l2, b = false) →
      (corner_dwell_stats (l1 ++ true :: l2)).2.2.1 = 1 ∧
      (corner_dwell_stats (l1 ++ true :: l2)).2.2.2 = 1) := by
  refine ⟨?_, ?_, ?_⟩
  · simp only [corner_dwell_stats, dwellScan, List.count_cons, List.count_nil,
      List.length_cons, List.length_nil]
    norm_num
  · intro rest
    simp only [corner_dwell_stats]
    have h1 : dwellScan (true :: rest) 0 0 0 false =
        dwellScan rest 1 1 1 true := by
      simp [dwellScan]
    rw [h1]
    exact dwellScan_entries_mono rest 1 1 1 true
  · intro l1 l2 h1 h2
    have hcore : dwellScan (l1 ++ true :: l2) 0 0 0 false =
        dwellScan (true :: l2) 0 0 0 false :=
      dwellScan_false_block l1 (true :: l2) 0 0 h1
    have hmain : dwellScan (true :: l2) 0 0 0 false = (1, 1) := by
      have hstep : dwellScan (true :: l2) 0 0 0 false = dwellScan l2 1 1 1 true := by
        simp [dwellScan]
      rw [hstep]
      cases l2 with
      | nil => rfl
      | cons y ys =>
          have hy : y = false := h2 y (List.mem_cons_self y ys)
          subst hy
          have hys : ∀ x ∈ ys, x = false := fun x hx => h2 x (List.mem_cons_of_mem _ hx)
          simp only [dwellScan, Bool.false_and, if_neg (Bool.false_ne_true)]
          exact dwellScan_all_false ys hys 1 1 false
    simp [corner_dwell_stats, hcore, hmain]

/-- Witness for C7: the second and third conjuncts instantiated at the
concrete lists [true, false] and [false] ++ true :: [false]. -/
theorem dwell_stats_concrete_scenario_witness :
    1 ≤ (corner_dwell_stats (true :: [false])).2.2.1 ∧
    ((corner_dwell_stats ([false] ++ true :: [false])).2.2.1 = 1 ∧
     (corner_dwell_stats ([false] ++ true :: [false])).2.2.2 = 1) :=
  ⟨dwell_stats_concrete_scenario.2.1 [false],
   dwell_stats_concrete_scenario.2.2 [false] [false]
     (by intro b hb; simpa using hb) (by intro b hb; simpa using hb)⟩

-- ==================================================================
-- C8: dwell statistics consistency
-- ==================================================================

/-- Claim C8: for every boolean flag sequence, entry_count ≤ dwell_count,
max_run_length ≤ dwell_count, dwell_count equals the number of True
flags, and dwell_fraction lies in [0, 1]. -/
theorem dwell_stats_consistency (flags : List Bool) :
    (corner_dwell_stats flags).2.2.1 ≤ (corner_dwell_stats flags).1 ∧
    (corner_dwell_stats flags).2.2.2 ≤ (corner_dwell_stats flags).1 ∧
    (corner_dwell_stats flags).1 = flags.count true ∧
    0 ≤ (corner_dwell_stats flags).2.1 ∧ (corner_dwell_stats flags).2.1 ≤ 1 := by
  have h := dwellScan_entries_le flags 0 0 0 false
  refine ⟨?_, ?_, rfl, ?_, ?_⟩
  · simpa [corner_dwell_stats] using h.1
  · have h2 := h.2
    simp only [Nat.zero_add, Nat.max_eq_right (Nat.zero_le _)] at h2
    simpa [corner_dwell_stats] using h2
  · simp only [corner_dwell_stats]
    split
    · norm_num
    · positivity
  · simp only [corner_dwell_stats]
    split
    · norm_num
    · rename_i hlen
      rw [div_le_one (by exact_mod_cast Nat.pos_of_ne_zero hlen)]
      exact_mod_cast List.count_le_length true flags

-- ==================================================================
-- C10: inline bookkeeping refines the post-hoc dwell statistics
-- ==================================================================

theorem runScan_eq_dwellScan : ∀ (l : List Bool) (hits : ℕ) (runs : List ℕ) (r : ℕ),
    (runScan l hits runs r).1 =
      (dwellScan l (hits + (if 0 < r then 1 else 0)) (max (listMax runs) r) r
        (decide (0 < r))).1 ∧
    listMax (runScan l hits runs r).2 =
      (dwellScan l (hits + (if 0 < r then 1 else 0)) (max (listMax runs) r) r
        (decide (0 < r))).2 := by
  intro l
  induction l with
  | nil =>
      intro hits runs r
      by_cases h : 0 < r
      · simp only [runScan, dwellScan, if_pos h, listMax_append_single]
        simp [h]
      · have hr : r = 0 := by omega
        subst hr
        simp [runScan, dwellScan]
  | cons f rest ih =>
      intro hits runs r
      cases f with
      | true =>
          have hlhs : runScan (true :: rest) hits runs r =
              runScan rest hits runs (r + 1) := by
            simp [runScan]
          by_cases h : 0 < r
          · have hrhs : dwellScan (true :: rest)
                (hits + (if 0 < r then 1 else 0)) (max (listMax runs) r) r
                (decide (0 < r)) =
                dwellScan rest (hits + 1) (max (listMax runs) (r + 1)) (r + 1) true := by
              simp only [dwellScan, if_pos h]
              have hd : decide (0 < r) = true := decide_eq_true h
              rw [hd]
              have hmax : max (max (listMax runs) r) (r + 1) =
                  max (listMax runs) (r + 1) := by
                rw [Nat.max_assoc]
                congr 1
                omega
              simp [hmax]
            rw [hlhs, hrhs]
            have h2 := ih hits runs (r + 1)
            have he : hits + (if 0 < r + 1 then 1 else 0) = hits + 1 := by simp
            have hd2 : decide (0 < r + 1) = true := by simp
            rw [he, hd2] at h2
            exact h2
          · have hr : r = 0 := by omega
            subst hr
            have hrhs : dwellScan (true :: rest)
                (hits + (if 0 < 0 then 1 else 0)) (max (listMax runs) 0) 0
                (decide (0 < 0)) =
                dwellScan rest (hits + 1) (max (listMax runs) 1) 1 true := by
              simp [dwellScan, Nat.max_assoc]
            rw [hlhs, hrhs]
            have h2 := ih hits runs 1
            have he : hits + (if 0 < 1 then 1 else 0) = hits + 1 := by simp
            have hd2 : decide (0 < 1) = true := by simp
            rw [he, hd2] at h2
            exact h2
      | false =>
          have hrhs : dwellScan (false :: rest)
              (hits + (if 0 < r then 1 else 0)) (max (listMax runs) r) r
              (decide (0 < r)) =
              dwellScan rest (hits + (if 0 < r then 1 else 0))
                (max (listMax runs) r) 0 false := by
            simp [dwellScan]
          by_cases h : 0 < r
          · have hlhs : runScan (false :: rest) hits runs r =
                runScan rest (hits + 1) (runs ++ [r]) 0 := by
              simp [runScan, h]
            rw [hlhs, hrhs]
            have h2 := ih (hits + 1) (runs ++ [r]) 0
            have he : hits + 1 + (if 0 < 0 then 1 else 0) = hits + (if 0 < r then 1 else 0) := by
              simp [h]
            have hm : max (listMax (runs ++ [r])) 0 = max (listMax runs) r := by
              rw [listMax_append_single]
              simp
            have hd2 : decide (0 < 0) = false := by simp
            rw [he, hm, hd2] at h2
            exact h2
          · have hr : r = 0 := by omega
            subst hr
            have hlhs : runScan (false :: rest) hits runs 0 =
                runScan rest hits runs 0 := by
              simp [runScan]
            rw [hlhs, hrhs]
            exact ih hits runs 0

/-- Claim C10: for every per-step in-corner flag sequence, the inline
corner-run bookkeeping of the simulation loop in
`pages/page_2_coupled_shear.py` (entry recorded when a run ends, open
run closed after the loop) produces the same entry count and the same
maximum run length as the post-hoc `corner_dwell_stats` classifier of
`pages/3_Toy3_CornerQuench.py` applied to the same flags; in
particular a run still open at the final step counts as one entry and
contributes to the maximum run length. -/
theorem inline_bookkeeping_matches_dwell_stats (flags : List Bool) :
    (corner_bookkeeping flags).1 = (corner_dwell_stats flags).2.2.1 ∧
    listMax (corner_bookkeeping flags).2 = (corner_dwell_stats flags).2.2.2 := by
  have h := runScan_eq_dwellScan flags 0 [] 0
  simp only [corner_bookkeeping, corner_dwell_stats]
  simpa [listMax] using h

-- ==================================================================
-- Trajectory generators (C3)
-- ==================================================================

/-- The per-step trajectory recorder shared by all simulation loops:
apply the step, record the new state, continue from the new state. -/
def traj {α : Type} (f : α → α) : ℕ → α → List α
  | 0, _ => []
  | n + 1, x => f x :: traj f n (f x)

/-- One step of `square_toy` in `streamlit_app.py` (lines 64–78):
outward drive away from the center, clamped to [0, 1] before the state
is recorded. -/
def square_toy_step {K : Type} [LinearOrderedField K] (dt : K) (p : K × K) : K × K :=
  (clamp (p.1 + dt * (p.1 - 1/2)) 0 1, clamp (p.2 + dt * (p.2 - 1/2)) 0 1)

/-- The trajectory of `square_toy` in `streamlit_app.py`, starting from
(0.6, 0.4). -/
def square_toy {K : Type} [LinearOrderedField K] (steps : ℕ) (dt : K) : List (K × K) :=
  traj (square_toy_step dt) steps (3/5, 2/5)

/-- One step of `toy1_square` in `pages/1_Toy_1_Square.py` (lines
52–76): constant clock velocities with reflecting bounds [lo, hi]. -/
def toy1_step {K : Type} [LinearOrderedField K] [FloorRing K]
    (dt vZ vS lo hi : K) (p : K × K) : K × K :=
  (reflect01 (p.1 + dt * vZ) lo hi, reflect01 (p.2 + dt * vS) lo hi)

/-- The trajectory of `toy1_square` in `pages/1_Toy_1_Square.py`:
bounds [0, scan_max], start (0.62·hi, 0.41·hi), velocities ω·hi. -/
def toy1_square {K : Type} [LinearOrderedField K] [FloorRing K]
    (steps : ℕ) (dt omega_z omega_s scan_max : K) : List (K × K) :=
  traj (toy1_step dt (omega_z * scan_max) (omega_s * scan_max) 0 scan_max) steps
    (31/50 * scan_max, 41/100 * scan_max)

/-- The recorded trajectory of `toy3_corner_quench` in
`pages/3_Toy3_CornerQuench.py`: kernel states (u, v) from the initial
amplitude (amp, -0.6·amp), recorded as the clipped pair
(clip(cx+u, 0, 1), clip(cy+v, 0, 1)). -/
def toy3_corner_quench {K : Type} [LinearOrderedField K]
    (steps : ℕ) (c s q corner_th shear cx cy amp : K) : List (K × K) :=
  (traj (toy3_kernel_step c s q corner_th shear cx cy) steps (amp, -(3/5) * amp)).map
    (fun uv => (clamp (cx + uv.1) 0 1, clamp (cy + uv.2) 0 1))

theorem traj_mem {α : Type} (f : α → α) :
    ∀ (n : ℕ) (x y : α), y ∈ traj f n x → ∃ z, y = f z := by
  intro n
  induction n with
  | zero =>
      intro x y h
      simp [traj] at h
  | succ n ih =>
      intro x y h
      rcases List.mem_cons.mp h with h1 | h2
      · exact ⟨x, h1⟩
      · exact ih (f x) y h2

theorem traj_head_mem {α : Type} (f : α → α) (x : α) {n : ℕ} (h : 0 < n) :
    f x ∈ traj f n x := by
  cases n with
  | zero => omega
  | succ n => exact List.mem_cons_self _ _

-- ==================================================================
-- C3
-- ==================================================================

/-- Counterexample to claim C3 as stated: with the admissible slider
values steps = 500, dt = 1/100, ω_Z = ω_Σ = 1, scan_max = 2, the very
first state recorded by `toy1_square` has Z-coordinate 63/50 = 1.26,
which lies outside [0, 1] (the reflecting bounds are [0, scan_max],
not [0, 1]). -/
theorem toy1_trajectory_escapes_unit_interval :
    ((63/50 : ℚ), (21/25 : ℚ)) ∈ toy1_square (K := ℚ) 500 (1/100) 1 1 2 ∧
    ¬((63/50 : ℚ) ≤ 1) := by
  constructor
  · have hstep : toy1_step (1/100 : ℚ) ((1:ℚ) * 2) ((1:ℚ) * 2) 0 2
        ((31/50 : ℚ) * 2, (41/100 : ℚ) * 2) = (63/50, 21/25) := by
      norm_num [toy1_step, reflect01, fmod]
    have hm := traj_head_mem
      (toy1_step (1/100 : ℚ) ((1:ℚ) * 2) ((1:ℚ) * 2) 0 2)
      (((31/50 : ℚ) * 2, (41/100 : ℚ) * 2)) (n := 500) (by norm_num)
    rw [hstep] at hm
    exact hm
  · norm_num

/-- Claim C3, amended: every coordinate of every recorded state lies in
the regime's configured bounds — [0, 1] for `square_toy`
(clamp before recording) and for `toy3_corner_quench` (clip before
recording), and [0, scan_max] for `toy1_square` (reflect into
[0, scan_max] before recording); for scan_max > 1 the Toy-1 coordinates
may exceed 1, so the uniform [0, 1] bound of the original claim holds
for all regimes only when scan_max ≤ 1. -/
theorem trajectories_within_bounds {K : Type} [LinearOrderedField K] [FloorRing K]
    (steps : ℕ) (dt c s q th shear cx cy amp omega_z omega_s scan_max : K)
    (hscan : 0 < scan_max) :
    (∀ p ∈ square_toy (K := K) steps dt,
      (0 ≤ p.1 ∧ p.1 ≤ 1) ∧ (0 ≤ p.2 ∧ p.2 ≤ 1)) ∧
    (∀ p ∈ toy3_corner_quench (K := K) steps c s q th shear cx cy amp,
      (0 ≤ p.1 ∧ p.1 ≤ 1) ∧ (0 ≤ p.2 ∧ p.2 ≤ 1)) ∧
    (∀ p ∈ toy1_square (K := K) steps dt omega_z omega_s scan_max,
      (0 ≤ p.1 ∧ p.1 ≤ scan_max) ∧ (0 ≤ p.2 ∧ p.2 ≤ scan_max)) := by
  refine ⟨?_, ?_, ?_⟩
  · intro p hp
    obtain ⟨z, rfl⟩ := traj_mem _ _ _ p hp
    exact ⟨clamp_mem _ zero_le_one, clamp_mem _ zero_le_one⟩
  · intro p hp
    rcases List.mem_map.mp hp with ⟨uv, _, rfl⟩
    exact ⟨clamp_mem _ zero_le_one, clamp_mem _ zero_le_one⟩
  · intro p hp
    obtain ⟨z, rfl⟩ := traj_mem _ _ _ p hp
    exact ⟨reflect01_mem _ hscan, reflect01_mem _ hscan⟩

/-- Witness for C3 (amended) at ℚ: the first recorded state of
`square_toy` with one step and dt = 1/100 is (601/1000, 399/1000),
which lies inside the unit square. -/
theorem trajectories_within_bounds_witness :
    (0 ≤ (601/1000 : ℚ) ∧ (601/1000 : ℚ) ≤ 1) ∧
    (0 ≤ (399/1000 : ℚ) ∧ (399/1000 : ℚ) ≤ 1) := by
  have h := (trajectories_within_bounds (K := ℚ)
    1 (1/100) 0 0 0 0 0 0 0 0 0 0 1 (by norm_num)).1
  have hstep : square_toy_step (1/100 : ℚ) ((3/5 : ℚ), (2/5 : ℚ)) =
      (601/1000, 399/1000) := by
    norm_num [square_toy_step, clamp, max_def, min_def]
  have hm := traj_head_mem (square_toy_step (1/100 : ℚ)) (((3/5 : ℚ), (2/5 : ℚ)))
    (n := 1) (by norm_num)
  rw [hstep] at hm
  exact h ((601/1000 : ℚ), (399/1000 : ℚ)) hm

end Squarr
